import Mathlib

/-!
Verification of the commit/patch parsing and scannable-content layer of
ggshield (`ggshield/scan/scannable.py`).

The Python source is shallowly embedded: program text (`str`) becomes
`List Char`, byte buffers (`bytes`) become `List Nat`, decoded text produced
by the byte decoder becomes `List Nat` (a sequence of code points).
External collaborators (the git process, the `charset_normalizer` encoding
detector, the non-UTF-8 codecs of the standard library, the exclusion
predicate, the size of a file on disk) are passed in as parameters, exactly
as the spec treats them: consumed, not implemented here.
-/

namespace Scannable

/-- Program text: a Python `str` as a list of characters. -/
abbrev Chars := List Char

/-- `Filemode` from `ggshield.core.utils` (the spec's `ChangeKind`):
`Added | Modified | Deleted | Renamed | File`.  Only the constructors used
by the patch parser are relevant here. -/
inductive Filemode where
  | FILE
  | MODIFY
  | NEW
  | RENAME
  | DELETE
deriving DecidableEq, Repr

/-- Python `s.rstrip(cs)`: remove trailing characters satisfying `p`. -/
def pyRstrip (p : Char → Bool) (s : Chars) : Chars :=
  (s.reverse.dropWhile p).reverse

/-- Python `s.split(sep)` for a single-character separator `sep`:
split on every occurrence, keeping empty fields. -/
def pySplitChar (sep : Char) : Chars → List Chars
  | [] => [[]]
  | c :: rest =>
    let r := pySplitChar sep rest
    if c = sep then
      [] :: r
    else
      match r with
      | [] => [[c]]
      | seg :: segs => (c :: seg) :: segs

/-- Python `s.rsplit(" ", 1)[-1]`: everything after the last space
(the whole string when it holds no space). -/
def afterLastSpace (s : Chars) : Chars :=
  (s.reverse.takeWhile (fun c => c ≠ ' ')).reverse

/-- `_parse_patch_header_line`, from the source:

```
prefix, name, *rest = line.rstrip(NUL).split(NUL)
if rest: name = rest[0]
status = prefix.rsplit(" ", 1)[-1].rstrip("0123456789")
if "M" in status: return name, Filemode.MODIFY
elif "C" in status: return name, Filemode.NEW
elif "A" in status: return name, Filemode.NEW
elif "T" in status: return name, Filemode.NEW
elif "R" in status: return name, Filemode.RENAME
elif "D" in status: return name, Filemode.DELETE
else: raise ValueError(...)
```

The unpacking `prefix, name, *rest = ...` raises a `ValueError` when the
split yields fewer than two fields; the embedding returns both failure modes
through `Except`, carrying the exception message. -/
def _parse_patch_header_line (line : Chars) : Except Chars (Chars × Filemode) :=
  match pySplitChar '\x00' (pyRstrip (fun c => c = '\x00') line) with
  | px :: nm :: rest =>
    let name := match rest with
      | r0 :: _ => r0
      | [] => nm
    let status := pyRstrip Char.isDigit (afterLastSpace px)
    if status.contains 'M' then .ok (name, .MODIFY)
    else if status.contains 'C' then .ok (name, .NEW)
    else if status.contains 'A' then .ok (name, .NEW)
    else if status.contains 'T' then .ok (name, .NEW)
    else if status.contains 'R' then .ok (name, .RENAME)
    else if status.contains 'D' then .ok (name, .DELETE)
    else .error (("Can't parse header line ").toList ++ line
      ++ (": unknown status ").toList ++ status)
  | _ => .error ("not enough values to unpack (expected at least 2, got 1)").toList

/-- The status letters a header line resolves: the last whitespace-separated
token of the part before the first NUL, with trailing decimal digits
stripped.  (Pure accessor used to state properties of
`_parse_patch_header_line`.) -/
def statusOf (px : Chars) : Chars :=
  pyRstrip Char.isDigit (afterLastSpace px)

/-! ### Stream splitting

The source splits the raw git output with `str.split` (with and without a
`maxsplit` bound) and `re.split` on the two fixed patterns `[\n\x00]:` and
`^diff ` (multiline).  All of them scan the text left to right for
non-overlapping matches; the embedding computes the match positions of the
scan and cuts the text at those positions. -/

/-- The match positions collected by a left-to-right scan over candidate
positions `is`: a position is retained when the matcher fires there and it is
not inside text consumed by an earlier match (`mlen` characters per match,
tracked by `skipUntil`). -/
def scanPositions (matchAt : Nat → Bool) (mlen : Nat) :
    List Nat → Nat → List Nat
  | [], _ => []
  | i :: is, skipUntil =>
    if i < skipUntil then scanPositions matchAt mlen is skipUntil
    else if matchAt i then i :: scanPositions matchAt mlen is (i + mlen)
    else scanPositions matchAt mlen is skipUntil

/-- Cut `s` at match positions `ps` (each match `mlen` characters wide),
starting the current segment at `start`. -/
def cutSegments (s : Chars) (mlen : Nat) : List Nat → Nat → List Chars
  | [], start => [s.drop start]
  | p :: ps, start =>
    ((s.drop start).take (p - start)) :: cutSegments s mlen ps (p + mlen)

/-- Python `s.split(sep)` for a non-empty separator string `sep`. -/
def pySplitSeq (sep : Chars) (s : Chars) : List Chars :=
  cutSegments s sep.length
    (scanPositions (fun i => sep.isPrefixOf (s.drop i)) sep.length
      (List.range s.length) 0) 0

/-- First match position of `sep` in `s` (Python `s.find(sep)` /
`s.index(sep)`). -/
def pyFind (sep : Chars) (s : Chars) : Option Nat :=
  (List.range s.length).find? (fun i => sep.isPrefixOf (s.drop i))

/-- Python `s.split(sep, 1)`: split on the first occurrence only. -/
def pySplitSeqOnce (sep : Chars) (s : Chars) : List Chars :=
  match pyFind sep s with
  | none => [s]
  | some p => [s.take p, s.drop (p + sep.length)]

/-- Matcher of `_RX_HEADER_LINE_SEPARATOR = re.compile("[\n\x00]:")` at
position `i` of `s`: a newline or NUL followed by a colon. -/
def headerSepAt (s : Chars) (i : Nat) : Bool :=
  match s.drop i with
  | a :: b :: _ => ((a = '\n' || a = '\x00') && b = ':')
  | _ => false

/-- `_RX_HEADER_LINE_SEPARATOR.split(header)`: `re.split` on `[\n\x00]:`,
a two-character match. -/
def headerSplit (header : Chars) : List Chars :=
  cutSegments header 2
    (scanPositions (headerSepAt header) 2 (List.range header.length) 0) 0

/-- Matcher of `re.split(r"^diff ", rest, flags=re.MULTILINE)` at position
`i`: `diff ` at the start of the text or right after a newline. -/
def diffSepAt (s : Chars) (i : Nat) : Bool :=
  (decide (i = 0) || decide (s.getD (i - 1) ' ' = '\n'))
    && (("diff ").toList.isPrefixOf (s.drop i))

/-- `re.split(r"^diff ", rest, flags=re.MULTILINE)`: the consumed match is
the five characters `diff ` (the `^` anchor is zero-width). -/
def diffSplit (rest : Chars) : List Chars :=
  cutSegments rest 5
    (scanPositions (diffSepAt rest) 5 (List.range rest.length) 0) 0

/-! ### Header parsing and the patch pipeline -/

/-- The work `_parse_patch_header` performs up to its first `yield`: raising
on an empty header (`header[0]` is an unconditional index), synthesizing a
leading blank line when the header starts with a colon, splitting on the
`[\n\x00]:` separator and discarding the commit-info segment.  The per-line
parses happen lazily, one per `next()` of the generator; they are performed
by the consumer (`processPairs` below), matching the generator semantics. -/
def _parse_patch_header (header : Chars) : Except Chars (List Chars) :=
  match header with
  | [] => .error ("string index out of range").toList
  | c :: _ =>
    let header' := if c = ':' then '\n' :: header else header
    .ok ((headerSplit header').drop 1)

/-- `StringScannable`: in-memory content extracted from a diff hunk,
tagged with its url (the filename) and filemode. -/
structure StringScannable where
  url : Chars
  filemode : Filemode
  _content : Chars
deriving DecidableEq, Repr

/-- The `for (filename, filemode), diff in zip(names_and_modes, diffs)` loop
of `_parse_patch`, with the generator's laziness made explicit: header line
`k` is parsed at the `k`-th `next()`, and `zip` pulls one extra element from
the header generator (parsing one extra line, whose result is discarded)
before discovering that `diffs` is exhausted.  Each parsed pair is dropped
when the filename is excluded or the diff holds no `\n@@` hunk marker;
otherwise the content after the marker's newline becomes a
`StringScannable`. -/
def processPairs (excl : Chars → Bool) :
    List Chars → List Chars → Except Chars (List StringScannable)
  | [], _ => .ok []
  | line :: _, [] => do
      let _ ← _parse_patch_header_line (':' :: line)
      .ok []
  | line :: lines, diff :: diffs => do
      let fm ← _parse_patch_header_line (':' :: line)
      let rest ← processPairs excl lines diffs
      if excl fm.1 then .ok rest
      else
        match pyFind ("\n@@").toList diff with
        | none => .ok rest
        | some i => .ok (⟨fm.1, fm.2, diff.drop (i + 1)⟩ :: rest)

/-- One iteration of the `for commit in patch.split("\x00commit ")` loop of
`_parse_patch`: split the section on the first `\x00diff `; a section with a
single token has no diff and yields nothing; otherwise parse the header part
and process the pairs of header lines and diff segments. -/
def processCommitSection (excl : Chars → Bool) (commit : Chars) :
    Except Chars (List StringScannable) :=
  match pySplitSeqOnce (("\x00diff ").toList) commit with
  | [_] => .ok []
  | header :: rest :: _ => do
      let lines ← _parse_patch_header header
      processPairs excl lines (diffSplit rest)
  | [] => .ok []

/-- Fold of `processCommitSection` over the commit sections, in order. -/
def processCommitSections (excl : Chars → Bool) :
    List Chars → Except Chars (List StringScannable)
  | [] => .ok []
  | c :: cs => do
      let fs ← processCommitSection excl c
      let rest ← processCommitSections excl cs
      .ok (fs ++ rest)

/-- `_parse_patch(patch, exclusion_regexes)`, collected into a list as
`Commit.files` does with `list(...)`: either every yielded `StringScannable`
in order, or the first exception. -/
def _parse_patch (excl : Chars → Bool) (patch : Chars) :
    Except Chars (List StringScannable) :=
  processCommitSections excl (pySplitSeq (("\x00commit ").toList) patch)

/-! ### Files and Commit

`Commit` accessors are modelled as explicit state transformers.  The git
collaborator is an oracle: `gitOut` is the text the external git process
would return for this commit's revision.  Each accessor call returns the
value, the commit state after the call, and instrumentation counters: how
many times the git process was invoked and how many times `_parse_patch`
was run during the call. -/

/-- `Files`: an ordered list of scannables (generic in the scannable type,
as the Python class holds any `Scannable`). -/
structure Files (α : Type) where
  _files : List α
deriving DecidableEq, Repr

/-- The `files` property: returns the owned list. -/
def Files.files {α : Type} (f : Files α) : List α := f._files

/-- `apply_filter`: builds a new `Files` from the comprehension
`[file for file in self.files if filter_func(file)]`.  The returned pair is
(result, receiver after the call); the method body only reads
`self.files`, so the receiver is returned unchanged. -/
def Files.apply_filter {α : Type} (self : Files α) (filter_func : α → Bool) :
    Files α × Files α :=
  (⟨(self.files).filter filter_func⟩, self)

/-- `PatchParseError`, the typed failure raised by `Commit.get_files`. -/
structure PatchParseError where
  message : Chars
deriving DecidableEq, Repr

/-- `Commit`: revision id (`none` means the staged diff), the exclusion
predicate (the collaborator `is_filepath_excluded` applied to the commit's
`exclusion_regexes`), and the two lazily-populated caches, initialized to
`None` and `[]` by `__init__`. -/
structure Commit where
  sha : Option Chars
  exclusion_regexes : Chars → Bool
  _patch : Option Chars
  _files : List StringScannable

/-- `Commit(sha, exclusion_regexes)`: both caches start empty. -/
def Commit.new (sha : Option Chars) (excl : Chars → Bool) : Commit :=
  ⟨sha, excl, none, []⟩

/-- Result of one accessor call on a `Commit`. -/
structure AccessResult (α : Type) where
  value : α
  state : Commit
  gitCalls : Nat
  parseRuns : Nat

/-- The `patch` property: `if self._patch is None`, invoke the git process
(one `gitCalls` tick) and cache its text; otherwise return the cache
untouched.  The command built from `sha` (`git show sha …` versus
`git diff --cached …`) is part of the external collaborator and is
summarized by the oracle `gitOut`. -/
def Commit.patch (c : Commit) (gitOut : Chars) : AccessResult Chars :=
  match c._patch with
  | some p => ⟨p, c, 0, 0⟩
  | none => ⟨gitOut, { c with _patch := some gitOut }, 1, 0⟩

/-- Python `f"..."` interpolation of an `Optional[str]`: `None` prints as
`None`. -/
def pyStrOfOptStr : Option Chars → Chars
  | none => ("None").toList
  | some s => s

/-- The message of the `PatchParseError` raised by `Commit.get_files`: the
interpolation of `self.sha` and the caught exception into
`Could not parse patch (sha: ...): ...`. -/
def patchParseErrorMessage (sha : Option Chars) (exc : Chars) : Chars :=
  ("Could not parse patch (sha: ").toList ++ pyStrOfOptStr sha
    ++ ("): ").toList ++ exc

/-- `Commit.get_files`, collected into a list: parse the (possibly freshly
fetched) patch; any exception `exc` escaping the parse is re-raised as the
single typed `PatchParseError` carrying the sha and `exc`. -/
def Commit.get_files (c : Commit) (gitOut : Chars) :
    AccessResult (Except PatchParseError (List StringScannable)) :=
  match _parse_patch c.exclusion_regexes (c.patch gitOut).value with
  | .ok fs => ⟨.ok fs, (c.patch gitOut).state, (c.patch gitOut).gitCalls, 1⟩
  | .error exc => ⟨.error ⟨patchParseErrorMessage c.sha exc⟩,
      (c.patch gitOut).state, (c.patch gitOut).gitCalls, 1⟩

/-- The `files` property of `Commit`: `if not self._files`, run
`list(self.get_files())` and cache the result; an escaping exception leaves
`_files` unassigned.  A non-empty cache is returned without re-parsing. -/
def Commit.files (c : Commit) (gitOut : Chars) :
    AccessResult (Except PatchParseError (List StringScannable)) :=
  if c._files.isEmpty then
    match (c.get_files gitOut).value with
    | .ok fs => ⟨.ok fs, { (c.get_files gitOut).state with _files := fs },
        (c.get_files gitOut).gitCalls, (c.get_files gitOut).parseRuns⟩
    | .error e => ⟨.error e, (c.get_files gitOut).state,
        (c.get_files gitOut).gitCalls, (c.get_files gitOut).parseRuns⟩
  else ⟨.ok c._files, c, 0, 0⟩

/-! ### File and the byte decoder

Byte buffers are lists of byte values; decoded text is a list of code
points, since the interesting content of the decoder's output is which code
points it starts with.  The `charset_normalizer` detector and the non-UTF-8
codecs of the standard library are external collaborators, passed as
`detect` and `decodeOther`. -/

/-- A UTF-8 continuation byte. -/
def isCont (b : Nat) : Bool := 0x80 ≤ b && b ≤ 0xBF

/-- `bytes.decode("utf_8", errors="replace")`: the standard UTF-8 decoder,
substituting U+FFFD for each maximal invalid subpart (surrogates and
overlong forms rejected, as CPython does). -/
def utf8Dec : List Nat → List Nat
  | [] => []
  | b :: rest =>
    if b ≤ 0x7F then b :: utf8Dec rest
    else if 0xC2 ≤ b && b ≤ 0xDF then
      match rest with
      | [] => [0xFFFD]
      | c1 :: r2 =>
        if isCont c1 then ((b - 0xC0) * 0x40 + (c1 - 0x80)) :: utf8Dec r2
        else 0xFFFD :: utf8Dec (c1 :: r2)
    else if 0xE0 ≤ b && b ≤ 0xEF then
      match rest with
      | [] => [0xFFFD]
      | c1 :: r2 =>
        if (if b = 0xE0 then 0xA0 ≤ c1 && c1 ≤ 0xBF
            else if b = 0xED then 0x80 ≤ c1 && c1 ≤ 0x9F
            else isCont c1) then
          match r2 with
          | [] => [0xFFFD]
          | c2 :: r3 =>
            if isCont c2 then
              ((b - 0xE0) * 0x1000 + (c1 - 0x80) * 0x40 + (c2 - 0x80)) :: utf8Dec r3
            else 0xFFFD :: utf8Dec (c2 :: r3)
        else 0xFFFD :: utf8Dec (c1 :: r2)
    else if 0xF0 ≤ b && b ≤ 0xF4 then
      match rest with
      | [] => [0xFFFD]
      | c1 :: r2 =>
        if (if b = 0xF0 then 0x90 ≤ c1 && c1 ≤ 0xBF
            else if b = 0xF4 then 0x80 ≤ c1 && c1 ≤ 0x8F
            else isCont c1) then
          match r2 with
          | [] => [0xFFFD]
          | c2 :: r3 =>
            if isCont c2 then
              match r3 with
              | [] => [0xFFFD]
              | c3 :: r4 =>
                if isCont c3 then
                  ((b - 0xF0) * 0x40000 + (c1 - 0x80) * 0x1000
                    + (c2 - 0x80) * 0x40 + (c3 - 0x80)) :: utf8Dec r4
                else 0xFFFD :: utf8Dec (c3 :: r4)
            else 0xFFFD :: utf8Dec (c2 :: r3)
        else 0xFFFD :: utf8Dec (c1 :: r2)
    else 0xFFFD :: utf8Dec rest

/-- `codecs.BOM_UTF8 = b"\xef\xbb\xbf"`. -/
def BOM_UTF8 : List Nat := [0xEF, 0xBB, 0xBF]

/-- `File._decode_bytes(raw_document, filename)`.  `detect` is the
`charset_normalizer.from_bytes(...).best()` collaborator, returning the name
of the detected encoding or `none`; `decodeOther` stands for the non-UTF-8
codecs.  Returns the decoded text and the optional `logger.warning` message
(`none` when nothing was reported); the function is total — it never
raises. -/
def _decode_bytes (detect : List Nat → Option String)
    (decodeOther : String → List Nat → List Nat)
    (raw_document : List Nat) (filename : Chars) :
    List Nat × Option Chars :=
  match detect raw_document with
  | none =>
    ([], some (("Skipping ").toList ++ filename
      ++ (", can't detect encoding").toList))
  | some enc =>
    let raw2 :=
      if enc == "utf_8" && BOM_UTF8.isPrefixOf raw_document then
        raw_document.drop BOM_UTF8.length
      else raw_document
    ((if enc == "utf_8" then utf8Dec raw2 else decodeOther enc raw2), none)

/-- `File`: a file-backed scannable.  `byteSize` is what
`os.path.getsize(self.path)` reports (the size on disk, an external fact);
`_content` is `None` until the content has been read and decoded. -/
structure File where
  url : Chars
  byteSize : Nat
  _content : Option (List Nat)
deriving DecidableEq, Repr

/-- Python truthiness of an `Optional[str]`: `None` and the empty string are
falsy. -/
def pyTruthy : Option (List Nat) → Bool
  | none => false
  | some c => !c.isEmpty

/-- `File.is_longer_than(size)`, from the source:

```
doc_size = len(self._content) if self._content else os.path.getsize(self.path)
return doc_size > size
```

Note the condition is Python truthiness of `Optional[str]`, not an
`is not None` test. -/
def File.is_longer_than (f : File) (size : Nat) : Bool :=
  let doc_size :=
    if pyTruthy f._content then (f._content.getD []).length else f.byteSize
  decide (doc_size > size)

/-! ### Theorems -/

example :
    _parse_patch_header_line (":100644 100644 sha1 sha2 M\x00path").toList
      = .ok (("path").toList, .MODIFY) := rfl

example :
    _parse_patch_header_line (":100644 100644 sha1 sha2 R100\x00old\x00new").toList
      = .ok (("new").toList, .RENAME) := rfl

example :
    (_parse_patch_header_line (":100644 100644 sha1 sha2 X\x00p").toList).isOk
      = false := by decide

example :
    _parse_patch_header_line ("::100644 100644 100644 a b c DM\x00p").toList
      = .ok (("p").toList, .MODIFY) := rfl

example : pySplitSeq ("ab").toList ("ab1ab2").toList
    = [[], ("1").toList, ("2").toList] := rfl

example : pySplitSeq ("aa").toList ("aaa").toList
    = [[], ("a").toList] := rfl

example : pySplitSeqOnce ("\x00diff ").toList ("h\x00diff x\x00diff y").toList
    = [("h").toList, ("x\x00diff y").toList] := rfl

example : diffSplit ("--git a\ndiff --git b\nx").toList
    = [("--git a\n").toList, ("--git b\nx").toList] := rfl

example :
    _parse_patch (fun _ => false)
      ("H\x00:100644 100644 a b M\x00foo\x00\x00diff --git\nxx\n@@ -0,0 +1 @@\n+s\n").toList
    = .ok [⟨("foo").toList, .MODIFY, ("@@ -0,0 +1 @@\n+s\n").toList⟩] := rfl

example : _parse_patch (fun _ => false) [] = .ok [] := rfl

example :
    utf8Dec [0xEF, 0xBB, 0xBF, 0xEF, 0xBB, 0xBF, 0x61]
      = [0xFEFF, 0xFEFF, 0x61] := rfl

example : utf8Dec [0xED, 0xA0, 0x80] = [0xFFFD, 0xFFFD, 0xFFFD] := rfl

example : utf8Dec [0xF4, 0x90, 0x80, 0x80]
    = [0xFFFD, 0xFFFD, 0xFFFD, 0xFFFD] := rfl

/-- Reduction of `_parse_patch_header_line` once the NUL-split of the line is
known. -/
theorem parse_patch_header_line_eq (line px nm : Chars) (rest : List Chars)
    (h : pySplitChar '\x00' (pyRstrip (fun c => c = '\x00') line)
      = px :: nm :: rest) :
    _parse_patch_header_line line =
      (let name := rest.headD nm
      let status := statusOf px
      if status.contains 'M' then .ok (name, .MODIFY)
      else if status.contains 'C' then .ok (name, .NEW)
      else if status.contains 'A' then .ok (name, .NEW)
      else if status.contains 'T' then .ok (name, .NEW)
      else if status.contains 'R' then .ok (name, .RENAME)
      else if status.contains 'D' then .ok (name, .DELETE)
      else .error (("Can't parse header line ").toList ++ line
        ++ (": unknown status ").toList ++ status)) := by
  unfold _parse_patch_header_line statusOf
  rw [h]
  cases rest <;> rfl

/-- C1: for every raw patch header line that splits into at least a prefix
and a name, the status letters (the last whitespace-separated token of the
prefix with trailing decimal digits stripped, `statusOf`) are resolved by
first-match precedence `M` → MODIFY, `C` → NEW, `A` → NEW, `T` → NEW,
`R` → RENAME, `D` → DELETE; in particular any status containing `M` gives
MODIFY regardless of the other letters, and a status containing none of the
six letters is a parse error whose message carries the offending line. -/
theorem parse_patch_header_line_precedence (line px nm : Chars)
    (rest : List Chars)
    (h : pySplitChar '\x00' (pyRstrip (fun c => c = '\x00') line)
      = px :: nm :: rest) :
    ((statusOf px).contains 'M' = true →
       ∃ n, _parse_patch_header_line line = .ok (n, .MODIFY))
    ∧ ((statusOf px).contains 'M' = false → (statusOf px).contains 'C' = true →
       ∃ n, _parse_patch_header_line line = .ok (n, .NEW))
    ∧ ((statusOf px).contains 'M' = false → (statusOf px).contains 'C' = false →
       (statusOf px).contains 'A' = true →
       ∃ n, _parse_patch_header_line line = .ok (n, .NEW))
    ∧ ((statusOf px).contains 'M' = false → (statusOf px).contains 'C' = false →
       (statusOf px).contains 'A' = false → (statusOf px).contains 'T' = true →
       ∃ n, _parse_patch_header_line line = .ok (n, .NEW))
    ∧ ((statusOf px).contains 'M' = false → (statusOf px).contains 'C' = false →
       (statusOf px).contains 'A' = false → (statusOf px).contains 'T' = false →
       (statusOf px).contains 'R' = true →
       ∃ n, _parse_patch_header_line line = .ok (n, .RENAME))
    ∧ ((statusOf px).contains 'M' = false → (statusOf px).contains 'C' = false →
       (statusOf px).contains 'A' = false → (statusOf px).contains 'T' = false →
       (statusOf px).contains 'R' = false → (statusOf px).contains 'D' = true →
       ∃ n, _parse_patch_header_line line = .ok (n, .DELETE))
    ∧ ((statusOf px).contains 'M' = false → (statusOf px).contains 'C' = false →
       (statusOf px).contains 'A' = false → (statusOf px).contains 'T' = false →
       (statusOf px).contains 'R' = false → (statusOf px).contains 'D' = false →
       _parse_patch_header_line line
         = .error (("Can't parse header line ").toList ++ line
             ++ (": unknown status ").toList ++ statusOf px)) := by
  rw [parse_patch_header_line_eq line px nm rest h]
  refine ⟨?_, ?_, ?_, ?_, ?_, ?_, ?_⟩ <;> intros <;> simp_all

/-- Witness for C1: a merge-commit line whose status is `MD` resolves to
MODIFY, and one with status `X` is the documented parse error. -/
theorem parse_patch_header_line_precedence_witness :
    (∃ n, _parse_patch_header_line
        ("::100644 100644 100644 a b c MD\x00f").toList = .ok (n, .MODIFY))
    ∧ _parse_patch_header_line (":100644 100644 a b X\x00f").toList
        = .error (("Can't parse header line :100644 100644 a b X\x00f"
            ++ ": unknown status X").toList) := by
  constructor
  · exact (parse_patch_header_line_precedence
      ("::100644 100644 100644 a b c MD\x00f").toList
      ("::100644 100644 100644 a b c MD").toList ("f").toList []
      (by decide)).1 (by decide)
  · have h := (parse_patch_header_line_precedence
      (":100644 100644 a b X\x00f").toList
      (":100644 100644 a b X").toList ("f").toList []
      (by decide)).2.2.2.2.2.2 (by decide) (by decide) (by decide) (by decide)
      (by decide) (by decide)
    exact h.trans (congrArg Except.error (by decide))

/-- C3 counterexample: a `File` whose content has been read and decoded to
the empty string answers `is_longer_than` from the on-disk byte size, not
from the decoded length — `len(self._content) if self._content else ...`
tests Python truthiness, and the empty string is falsy.  With 5 bytes on
disk and empty decoded content, `is_longer_than(0)` is `true`, while the
decoded length 0 would answer `false`. -/
theorem File_is_longer_than_counterexample :
    ¬ (∀ (f : File) (c : List Nat) (size : Nat), f._content = some c →
        f.is_longer_than size = decide (c.length > size)) := by
  intro h
  have := h ⟨("f").toList, 5, some []⟩ [] 0 rfl
  exact absurd this (by decide)

/-- C3 (amended): if the content has not yet been read, `is_longer_than`
answers from the underlying file's byte size on disk; once the content has
been read *and is non-empty*, it answers from the length of the decoded
text; when the read content decoded to the empty string, it falls back to
the byte size on disk. -/
theorem File_is_longer_than_amended (f : File) (size : Nat) :
    (f._content = none →
      f.is_longer_than size = decide (f.byteSize > size))
    ∧ (∀ c, f._content = some c → c ≠ [] →
      f.is_longer_than size = decide (c.length > size))
    ∧ (f._content = some [] →
      f.is_longer_than size = decide (f.byteSize > size)) := by
  refine ⟨?_, ?_, ?_⟩
  · intro h
    simp [File.is_longer_than, pyTruthy, h]
  · intro c hc hne
    simp [File.is_longer_than, pyTruthy, hc, hne]
  · intro h
    simp [File.is_longer_than, pyTruthy, h]

/-- Witness for C3 (amended): an unread 3-byte file is longer than 2;
a read two-code-point content is not longer than 2. -/
theorem File_is_longer_than_amended_witness :
    (File.is_longer_than ⟨("f").toList, 3, none⟩ 2 = true)
    ∧ (File.is_longer_than ⟨("g").toList, 9, some [0x61, 0x62]⟩ 2 = false) := by
  constructor
  · exact ((File_is_longer_than_amended ⟨("f").toList, 3, none⟩ 2).1 rfl).trans
      (by decide)
  · exact ((File_is_longer_than_amended ⟨("g").toList, 9, some [0x61, 0x62]⟩
      2).2.1 [0x61, 0x62] rfl (by decide)).trans (by decide)

/-- C7: when encoding detection fails, `_decode_bytes` does not raise (it is
a total function): it returns the empty text together with the warning
message naming the given label. -/
theorem decode_bytes_detection_failure (detect : List Nat → Option String)
    (decodeOther : String → List Nat → List Nat)
    (raw : List Nat) (filename : Chars)
    (h : detect raw = none) :
    _decode_bytes detect decodeOther raw filename
      = ([], some (("Skipping ").toList ++ filename
          ++ (", can't detect encoding").toList)) := by
  unfold _decode_bytes
  rw [h]

/-- Witness for C7: a concrete detector that fails on a concrete buffer. -/
theorem decode_bytes_detection_failure_witness :
    _decode_bytes (fun _ => none) (fun _ _ => []) [0xFF, 0xFE] (("f").toList)
      = ([], some (("Skipping f, can't detect encoding").toList)) := by
  exact (decode_bytes_detection_failure (fun _ => none) (fun _ _ => [])
    [0xFF, 0xFE] (("f").toList) rfl).trans (by decide)

/-- C9: `apply_filter` returns a new `Files` holding exactly the scannables
of the receiver satisfying the predicate, in the receiver's order (a
sublist), and the receiver itself is unchanged by the call. -/
theorem Files_apply_filter_spec {α : Type} (fs : Files α) (p : α → Bool) :
    ((fs.apply_filter p).1.files = fs.files.filter p)
    ∧ (∀ x, x ∈ (fs.apply_filter p).1.files ↔ x ∈ fs.files ∧ p x = true)
    ∧ ((fs.apply_filter p).1.files.Sublist fs.files)
    ∧ ((fs.apply_filter p).2 = fs) := by
  refine ⟨rfl, ?_, ?_, rfl⟩
  · intro x
    simp [Files.apply_filter, Files.files, List.mem_filter]
  · exact List.filter_sublist fs._files

/-- C10: `_parse_patch_header` applied to the empty header raises (the
source indexes `header[0]` unconditionally) instead of yielding no entries;
consequently a commit section whose portion before the first `\x00diff `
marker is empty — and a whole patch made of such a section — fails to parse
instead of contributing zero files. -/
theorem parse_patch_header_empty_raises :
    (_parse_patch_header [] = .error (("string index out of range").toList))
    ∧ (∀ (excl : Chars → Bool) (rest : Chars),
        processCommitSection excl ((("\x00diff ").toList) ++ rest)
          = .error (("string index out of range").toList))
    ∧ (∀ excl : Chars → Bool,
        _parse_patch excl (("\x00diff x").toList)
          = .error (("string index out of range").toList)) := by
  refine ⟨rfl, ?_, fun _ => rfl⟩
  intro excl rest
  have hfind : pyFind (("\x00diff ").toList) ((("\x00diff ").toList) ++ rest)
      = some 0 := by
    unfold pyFind
    have hlen : ((("\x00diff ").toList) ++ rest).length = rest.length + 5 + 1 := by
      have h6 : ((("\x00diff ").toList)).length = 6 := by decide
      rw [List.length_append, h6]
      omega
    rw [hlen, List.range_succ_eq_map]
    exact List.find?_cons_of_pos _ (by simp [List.isPrefixOf_iff_prefix])
  unfold processCommitSection pySplitSeqOnce
  rw [hfind]
  rfl

set_option maxHeartbeats 2000000

/-- The UTF-8 replace-decoder only emits U+FEFF first when the input starts
with the three BOM bytes: every other first output is an ASCII value
(≤ 0x7F), a two-byte value (≤ 0x7FF), a four-byte value (≥ 0x10000), a
different three-byte value, or the replacement character U+FFFD. -/
theorem utf8Dec_head_feff : ∀ bs : List Nat,
    (utf8Dec bs).head? = some 0xFEFF →
      ∃ r, bs = 0xEF :: 0xBB :: 0xBF :: r := by
  intro bs h
  match bs with
  | [] => simp [utf8Dec] at h
  | [b] =>
    rw [utf8Dec.eq_2] at h
    split_ifs at h <;>
      simp only [List.head?_cons, Option.some.injEq, isCont, Bool.and_eq_true,
        decide_eq_true_eq] at * <;>
      exact absurd h (by omega)
  | [b, c1] =>
    rw [utf8Dec.eq_3] at h
    split_ifs at h <;>
      simp only [List.head?_cons, Option.some.injEq, isCont, Bool.and_eq_true,
        decide_eq_true_eq] at * <;>
      exact absurd h (by omega)
  | [b, c1, c2] =>
    rw [utf8Dec.eq_4] at h
    split_ifs at h <;>
      simp only [List.head?_cons, Option.some.injEq, isCont, Bool.and_eq_true,
        decide_eq_true_eq] at * <;>
      first
        | exact absurd h (by omega)
        | (obtain ⟨hb, hc1, hc2⟩ : b = 239 ∧ c1 = 187 ∧ c2 = 191 := by omega
           exact ⟨[], by rw [hb, hc1, hc2]⟩)
  | b :: c1 :: c2 :: c3 :: r =>
    rw [utf8Dec.eq_5] at h
    split_ifs at h <;>
      simp only [List.head?_cons, Option.some.injEq, isCont, Bool.and_eq_true,
        decide_eq_true_eq] at * <;>
      first
        | exact absurd h (by omega)
        | (obtain ⟨hb, hc1, hc2⟩ : b = 239 ∧ c1 = 187 ∧ c2 = 191 := by omega
           exact ⟨c3 :: r, by rw [hb, hc1, hc2]⟩)

set_option maxHeartbeats 400000

/-- C8 counterexample: a buffer beginning with *two* UTF-8 byte-order marks,
detected as UTF-8, still decodes to text whose position 0 is the BOM
character U+FEFF — only the first mark is stripped before decoding, the
second one decodes as a regular code point.  The input satisfies the claim's
premises (detected encoding UTF-8, leading BOM), yet the returned text has a
BOM character at position 0. -/
theorem decode_bytes_bom_counterexample :
    ((fun _ => some "utf_8") [0xEF, 0xBB, 0xBF, 0xEF, 0xBB, 0xBF, 0x61]
        = some "utf_8")
    ∧ (BOM_UTF8.isPrefixOf [0xEF, 0xBB, 0xBF, 0xEF, 0xBB, 0xBF, 0x61] = true)
    ∧ ((_decode_bytes (fun _ => some "utf_8") (fun _ _ => [])
        [0xEF, 0xBB, 0xBF, 0xEF, 0xBB, 0xBF, 0x61] (("f").toList)).1.head?
      = some 0xFEFF) := ⟨rfl, rfl, rfl⟩

/-- C8 (amended): for every byte buffer whose detected encoding is UTF-8 and
which begins with the UTF-8 byte-order mark, `_decode_bytes` strips the mark
before decoding — the returned text is the UTF-8 decoding of the buffer
without its first three bytes — and consequently the returned text has no
BOM character at position 0 unless the remaining bytes begin with a second
byte-order mark. -/
theorem decode_bytes_bom_strip_amended (detect : List Nat → Option String)
    (decodeOther : String → List Nat → List Nat) (raw : List Nat)
    (filename : Chars)
    (h : detect raw = some "utf_8") (hbom : BOM_UTF8.isPrefixOf raw = true) :
    ((_decode_bytes detect decodeOther raw filename).1 = utf8Dec (raw.drop 3))
    ∧ ((¬ ∃ r, raw.drop 3 = 0xEF :: 0xBB :: 0xBF :: r) →
        (_decode_bytes detect decodeOther raw filename).1.head?
          ≠ some 0xFEFF) := by
  have hmain : (_decode_bytes detect decodeOther raw filename).1
      = utf8Dec (raw.drop 3) := by
    have hpre : [0xEF, 0xBB, 0xBF] <+: raw := by
      simpa [BOM_UTF8, List.isPrefixOf_iff_prefix] using hbom
    unfold _decode_bytes
    rw [h]
    simp [hbom, BOM_UTF8, hpre]
  refine ⟨hmain, fun hne hcontra => ?_⟩
  rw [hmain] at hcontra
  exact hne (utf8Dec_head_feff _ hcontra)

/-- Witness for C8 (amended): a single-BOM buffer decodes to the remainder
without the mark, and has no BOM character at position 0. -/
theorem decode_bytes_bom_strip_amended_witness :
    ((_decode_bytes (fun _ => some "utf_8") (fun _ _ => [])
        [0xEF, 0xBB, 0xBF, 0x61] (("f").toList)).1 = [0x61])
    ∧ ((_decode_bytes (fun _ => some "utf_8") (fun _ _ => [])
        [0xEF, 0xBB, 0xBF, 0x61] (("f").toList)).1.head?
      ≠ some 0xFEFF) := by
  constructor
  · exact ((decode_bytes_bom_strip_amended (fun _ => some "utf_8")
      (fun _ _ => []) [0xEF, 0xBB, 0xBF, 0x61] (("f").toList) rfl
      (by decide)).1).trans (by decide)
  · exact (decode_bytes_bom_strip_amended (fun _ => some "utf_8")
      (fun _ _ => []) [0xEF, 0xBB, 0xBF, 0x61] (("f").toList) rfl
      (by decide)).2 (by rintro ⟨r, hr⟩; simp at hr)

/-- The `patch` accessor never touches the `_files` cache. -/
theorem Commit_patch_state_files (c : Commit) (gitOut : Chars) :
    (c.patch gitOut).state._files = c._files := by
  unfold Commit.patch
  cases c._patch <;> rfl

/-- `patch` on an unfetched cache: one git invocation, text cached. -/
theorem Commit_patch_none_eq (c : Commit) (gitOut : Chars)
    (h : c._patch = none) :
    c.patch gitOut = ⟨gitOut, { c with _patch := some gitOut }, 1, 0⟩ := by
  unfold Commit.patch
  rw [h]

/-- `patch` on a populated cache: no invocation, no state change. -/
theorem Commit_patch_some_eq (c : Commit) (gitOut p : Chars)
    (h : c._patch = some p) :
    c.patch gitOut = ⟨p, c, 0, 0⟩ := by
  unfold Commit.patch
  rw [h]

/-- `get_files` when the parse succeeds. -/
theorem Commit_get_files_ok_eq (c : Commit) (gitOut : Chars)
    (fs : List StringScannable)
    (h : _parse_patch c.exclusion_regexes ((c.patch gitOut).value) = .ok fs) :
    c.get_files gitOut
      = ⟨.ok fs, (c.patch gitOut).state, (c.patch gitOut).gitCalls, 1⟩ := by
  unfold Commit.get_files
  rw [h]

/-- `get_files` when the parse raises: the single `PatchParseError`. -/
theorem Commit_get_files_error_eq (c : Commit) (gitOut : Chars) (exc : Chars)
    (h : _parse_patch c.exclusion_regexes ((c.patch gitOut).value)
      = .error exc) :
    c.get_files gitOut
      = ⟨.error ⟨patchParseErrorMessage c.sha exc⟩, (c.patch gitOut).state,
          (c.patch gitOut).gitCalls, 1⟩ := by
  unfold Commit.get_files
  rw [h]

/-- `get_files` costs exactly what the inner `patch` access costs. -/
theorem Commit_get_files_gitCalls (c : Commit) (gitOut : Chars) :
    (c.get_files gitOut).gitCalls = (c.patch gitOut).gitCalls := by
  unfold Commit.get_files
  cases _parse_patch c.exclusion_regexes ((c.patch gitOut).value) <;> rfl

/-- `get_files` leaves the state exactly as the inner `patch` access did. -/
theorem Commit_get_files_state (c : Commit) (gitOut : Chars) :
    (c.get_files gitOut).state = (c.patch gitOut).state := by
  unfold Commit.get_files
  cases _parse_patch c.exclusion_regexes ((c.patch gitOut).value) <;> rfl

/-- `files` on a non-empty cache: served from the cache. -/
theorem Commit_files_cached_eq (c : Commit) (gitOut : Chars)
    (h : c._files.isEmpty = false) :
    c.files gitOut = ⟨.ok c._files, c, 0, 0⟩ := by
  unfold Commit.files
  rw [if_neg (fun hc => by rw [h] at hc; exact Bool.noConfusion hc)]

/-- `files` on an empty cache when parsing succeeds. -/
theorem Commit_files_ok_eq (c : Commit) (gitOut : Chars)
    (fs : List StringScannable)
    (hemp : c._files.isEmpty = true)
    (h : (c.get_files gitOut).value = .ok fs) :
    c.files gitOut
      = ⟨.ok fs, { (c.get_files gitOut).state with _files := fs },
          (c.get_files gitOut).gitCalls, (c.get_files gitOut).parseRuns⟩ := by
  unfold Commit.files
  rw [if_pos hemp, h]

/-- `files` on an empty cache when parsing fails: `_files` not assigned. -/
theorem Commit_files_error_eq (c : Commit) (gitOut : Chars)
    (e : PatchParseError)
    (hemp : c._files.isEmpty = true)
    (h : (c.get_files gitOut).value = .error e) :
    c.files gitOut
      = ⟨.error e, (c.get_files gitOut).state,
          (c.get_files gitOut).gitCalls, (c.get_files gitOut).parseRuns⟩ := by
  unfold Commit.files
  rw [if_pos hemp, h]

/-- C2: when parsing the (possibly freshly fetched) patch text fails with an
underlying cause `exc`, the `files` accessor of a `Commit` whose file cache
is unpopulated surfaces exactly one typed `PatchParseError` whose message
carries the commit's sha and `exc`, and the `_files` cache stays
unpopulated — the failure never leaves a partially filled list. -/
theorem Commit_files_failure (c : Commit) (gitOut : Chars) (exc : Chars)
    (hfiles : c._files = [])
    (herr : _parse_patch c.exclusion_regexes ((c.patch gitOut).value)
      = .error exc) :
    ((c.files gitOut).value = .error ⟨patchParseErrorMessage c.sha exc⟩)
    ∧ ((c.files gitOut).state._files = []) := by
  have hgf := Commit_get_files_error_eq c gitOut exc herr
  have hemp : c._files.isEmpty = true := by rw [hfiles]; rfl
  have hfe := Commit_files_error_eq c gitOut
    ⟨patchParseErrorMessage c.sha exc⟩ hemp (by rw [hgf])
  rw [hfe]
  refine ⟨rfl, ?_⟩
  show (c.get_files gitOut).state._files = []
  rw [Commit_get_files_state, Commit_patch_state_files, hfiles]

/-- Witness for C2: a fresh commit whose patch starts with `\x00diff ` (so
the header parser hits the empty-header index error); the single error
carries the sha `abc` and the cause, and the file cache stays empty. -/
theorem Commit_files_failure_witness :
    (((Commit.new (some (("abc").toList)) (fun _ => false)).files
        (("\x00diff x").toList)).value
      = .error ⟨patchParseErrorMessage (some (("abc").toList))
          (("string index out of range").toList)⟩)
    ∧ (((Commit.new (some (("abc").toList)) (fun _ => false)).files
        (("\x00diff x").toList)).state._files = []) := by
  exact Commit_files_failure (Commit.new (some (("abc").toList))
    (fun _ => false)) (("\x00diff x").toList)
    (("string index out of range").toList) rfl rfl

/-- C4 counterexample: a commit whose patch parses to the *empty* file list.
The first access to `files` returns normally (with `.ok []`), yet the second
access runs the patch parser again (`parseRuns = 1`, not `0`), because
`if not self._files` re-enters the parsing branch when the cached list is
empty.  This refutes the claim that after a first access to `files` has
returned, no subsequent access re-runs the parser. -/
theorem Commit_files_reparse_counterexample :
    (((Commit.new none (fun _ => false)).files []).value = .ok [])
    ∧ ((((Commit.new none (fun _ => false)).files []).state.files
        []).parseRuns = 1) := by
  exact ⟨rfl, rfl⟩

/-- C4 (amended): once a first access to `files` has returned a *non-empty*
list, every subsequent access returns the same cached list without running
the patch parser or the git process again and without changing the state;
(as the counterexample shows, a first access that returned the empty list
re-runs the parser on later accesses). -/
theorem Commit_files_cached_when_nonempty (c : Commit) (gitOut : Chars)
    (fs : List StringScannable)
    (hok : (c.files gitOut).value = .ok fs) (hne : fs ≠ []) :
    (((c.files gitOut).state.files gitOut).value = .ok fs)
    ∧ (((c.files gitOut).state.files gitOut).parseRuns = 0)
    ∧ (((c.files gitOut).state.files gitOut).gitCalls = 0)
    ∧ (((c.files gitOut).state.files gitOut).state = (c.files gitOut).state) := by
  have hsf : (c.files gitOut).state._files = fs := by
    by_cases hemp : c._files.isEmpty = true
    · cases hval : (c.get_files gitOut).value with
      | ok fs' =>
        have hfe := Commit_files_ok_eq c gitOut fs' hemp hval
        rw [hfe] at hok
        have hfs : fs' = fs := by simpa using hok
        rw [hfe]
        exact hfs
      | error e =>
        have hfe := Commit_files_error_eq c gitOut e hemp hval
        rw [hfe] at hok
        exact absurd hok (by simp)
    · have hemp' : c._files.isEmpty = false := by
        revert hemp
        cases c._files.isEmpty <;> simp
      have hce := Commit_files_cached_eq c gitOut hemp'
      rw [hce] at hok
      have hfs : c._files = fs := by simpa using hok
      rw [hce]
      exact hfs
  have hemp2 : ((c.files gitOut).state)._files.isEmpty = false := by
    rw [hsf]
    exact List.isEmpty_eq_false.mpr hne
  have hc := Commit_files_cached_eq ((c.files gitOut).state) gitOut hemp2
  rw [hc]
  exact ⟨by rw [hsf], rfl, rfl, rfl⟩

/-- Witness for C4 (amended): on a one-file patch, the second access is
served from the cache with no parser run. -/
theorem Commit_files_cached_when_nonempty_witness :
    ((((Commit.new none (fun _ => false)).files
        (("H\x00:100644 100644 a b M\x00foo\x00\x00diff --git\nxx\n@@ -0,0 +1 @@\n+s\n").toList)).state.files
        (("H\x00:100644 100644 a b M\x00foo\x00\x00diff --git\nxx\n@@ -0,0 +1 @@\n+s\n").toList)).parseRuns = 0)
    ∧ ((((Commit.new none (fun _ => false)).files
        (("H\x00:100644 100644 a b M\x00foo\x00\x00diff --git\nxx\n@@ -0,0 +1 @@\n+s\n").toList)).state.files
        (("H\x00:100644 100644 a b M\x00foo\x00\x00diff --git\nxx\n@@ -0,0 +1 @@\n+s\n").toList)).value
      = .ok [⟨("foo").toList, .MODIFY, ("@@ -0,0 +1 @@\n+s\n").toList⟩]) := by
  have h := Commit_files_cached_when_nonempty (Commit.new none (fun _ => false))
    (("H\x00:100644 100644 a b M\x00foo\x00\x00diff --git\nxx\n@@ -0,0 +1 @@\n+s\n").toList)
    [⟨("foo").toList, .MODIFY, ("@@ -0,0 +1 @@\n+s\n").toList⟩] rfl (by decide)
  exact ⟨h.2.1, h.1⟩

/-- Any `files` access on a commit whose patch text is already cached costs
no git invocation. -/
theorem Commit_files_gitCalls_zero_of_cached (c : Commit) (gitOut p : Chars)
    (h : c._patch = some p) : (c.files gitOut).gitCalls = 0 := by
  by_cases hemp : c._files.isEmpty = true
  · cases hval : (c.get_files gitOut).value with
    | ok fs =>
      rw [Commit_files_ok_eq c gitOut fs hemp hval]
      show (c.get_files gitOut).gitCalls = 0
      rw [Commit_get_files_gitCalls, Commit_patch_some_eq c gitOut p h]
    | error e =>
      rw [Commit_files_error_eq c gitOut e hemp hval]
      show (c.get_files gitOut).gitCalls = 0
      rw [Commit_get_files_gitCalls, Commit_patch_some_eq c gitOut p h]
  · have hemp' : c._files.isEmpty = false := by
      revert hemp
      cases c._files.isEmpty <;> simp
    rw [Commit_files_cached_eq c gitOut hemp']

/-- A `files` access on a fresh commit fetches the patch (one git call) and
leaves the patch cache populated with the fetched text. -/
theorem Commit_files_caches_patch (c : Commit) (gitOut : Chars)
    (hp : c._patch = none) (hf : c._files = []) :
    ((c.files gitOut).state)._patch = some gitOut
    ∧ (c.files gitOut).gitCalls = 1 := by
  have hemp : c._files.isEmpty = true := by rw [hf]; rfl
  have hpe := Commit_patch_none_eq c gitOut hp
  cases hval : (c.get_files gitOut).value with
  | ok fs =>
    rw [Commit_files_ok_eq c gitOut fs hemp hval]
    constructor
    · show (c.get_files gitOut).state._patch = some gitOut
      rw [Commit_get_files_state, hpe]
    · show (c.get_files gitOut).gitCalls = 1
      rw [Commit_get_files_gitCalls, hpe]
  | error e =>
    rw [Commit_files_error_eq c gitOut e hemp hval]
    constructor
    · show (c.get_files gitOut).state._patch = some gitOut
      rw [Commit_get_files_state, hpe]
    · show (c.get_files gitOut).gitCalls = 1
      rw [Commit_get_files_gitCalls, hpe]

/-- C5: the raw patch text is fetched from the git process exactly once and
memoized.  A first access on a fresh commit invokes git once, returns the
fetched text and caches it; every access on a commit whose cache holds the
text returns that same text with zero invocations and no state change; and
two consecutive `files` accesses on a fresh commit cost exactly one git
invocation in total. -/
theorem Commit_patch_memoized (c : Commit) (gitOut : Chars)
    (hp : c._patch = none) (hf : c._files = []) :
    ((c.patch gitOut).value = gitOut
      ∧ (c.patch gitOut).gitCalls = 1
      ∧ ((c.patch gitOut).state)._patch = some gitOut)
    ∧ (∀ c' : Commit, c'._patch = some gitOut →
        c'.patch gitOut = ⟨gitOut, c', 0, 0⟩)
    ∧ ((c.files gitOut).gitCalls
        + ((c.files gitOut).state.files gitOut).gitCalls = 1) := by
  refine ⟨?_, ?_, ?_⟩
  · rw [Commit_patch_none_eq c gitOut hp]
    exact ⟨rfl, rfl, rfl⟩
  · intro c' h'
    exact Commit_patch_some_eq c' gitOut gitOut h'
  · have h1 := Commit_files_caches_patch c gitOut hp hf
    rw [h1.2, Commit_files_gitCalls_zero_of_cached ((c.files gitOut).state)
      gitOut gitOut h1.1]

/-- Witness for C5: a fresh commit, a one-shot patch fetch across two
`files` accesses. -/
theorem Commit_patch_memoized_witness :
    (((Commit.new none (fun _ => false)).patch (("x").toList)).value
      = ("x").toList)
    ∧ (((Commit.new none (fun _ => false)).files (("x").toList)).gitCalls
        + ((((Commit.new none (fun _ => false)).files
            (("x").toList)).state).files (("x").toList)).gitCalls = 1) := by
  have h := Commit_patch_memoized (Commit.new none (fun _ => false))
    (("x").toList) rfl rfl
  exact ⟨h.1.1, h.2.2⟩

/-- C6: when every header line of a commit section parses successfully, the
positional pairing step never fails, whatever the relation between the
number of header entries and the number of diff segments: the result is
`.ok` and holds at most `min` of the two counts of scannables — excess
entries on either side are silently dropped. -/
theorem except_ok_bind {ε α β : Type} (a : α) (f : α → Except ε β) :
    (Except.ok (ε := ε) a >>= f) = f a := rfl

theorem processPairs_truncates (excl : Chars → Bool)
    (lines diffs : List Chars)
    (hok : ∀ line ∈ lines, (_parse_patch_header_line (':' :: line)).isOk = true) :
    ∃ out, processPairs excl lines diffs = .ok out
      ∧ out.length ≤ min lines.length diffs.length := by
  induction lines generalizing diffs with
  | nil => exact ⟨[], rfl, by simp⟩
  | cons line lines ih =>
    have hline := hok line (by simp)
    obtain ⟨v, hv⟩ : ∃ v, _parse_patch_header_line (':' :: line) = .ok v := by
      cases hl : _parse_patch_header_line (':' :: line) with
      | ok v => exact ⟨v, rfl⟩
      | error e =>
        rw [hl] at hline
        simp [Except.isOk, Except.toBool] at hline
    cases diffs with
    | nil =>
      refine ⟨[], ?_, by simp⟩
      unfold processPairs
      simp only [hv, except_ok_bind]
    | cons diff diffs =>
      obtain ⟨out, hout, hlen⟩ := ih diffs (fun l hl => hok l (by simp [hl]))
      by_cases hex : excl v.1
      · refine ⟨out, ?_, by simp; omega⟩
        unfold processPairs
        simp only [hv, hout, except_ok_bind]
        simp [hex]
      · cases hfind : pyFind (("\n@@").toList) diff with
        | none =>
          refine ⟨out, ?_, by simp; omega⟩
          unfold processPairs
          simp only [hv, hout, except_ok_bind]
          have hfind' : pyFind ['\n', '@', '@'] diff = none := hfind
          simp [hex, hfind']
        | some i =>
          refine ⟨⟨v.1, v.2, diff.drop (i + 1)⟩ :: out, ?_, by simp; omega⟩
          unfold processPairs
          simp only [hv, hout, except_ok_bind]
          have hfind' : pyFind ['\n', '@', '@'] diff = some i := hfind
          simp [hex, hfind']

/-- Witness for C6: three well-formed header lines against a single diff
segment — no failure, and at most one scannable. -/
theorem processPairs_truncates_witness :
    ∃ out, processPairs (fun _ => false)
        [("100644 100644 a b M\x00f").toList,
         ("100644 100644 a b D\x00g").toList,
         ("100644 100644 a b A\x00h").toList]
        [("x\n@@ y").toList] = .ok out
      ∧ out.length ≤ 1 := by
  have h := processPairs_truncates (fun _ => false)
    [("100644 100644 a b M\x00f").toList,
     ("100644 100644 a b D\x00g").toList,
     ("100644 100644 a b A\x00h").toList]
    [("x\n@@ y").toList] (by decide)
  simpa using h

end Scannable
